import Mathlib

/-!
Shallow embedding of `src/py/flwr/cli/flower_toml.py`.

The configuration tree loaded from a TOML manifest is modelled by `Value`
(strings, integers, arrays, tables).  Tables are insertion-ordered
association lists, matching Python dict semantics: lookup finds the first
matching key, assignment of an existing key updates in place, assignment of
a fresh key appends at the end.

Python dynamic operations that the source relies on are modelled
explicitly: membership `k in v` (`pyContains`, which on strings is a
substring test, on lists an element comparison, and raises TypeError on
integers), subscripting `v[k]` (`pyIndex`, raising KeyError or TypeError),
and the import machinery (`ImportEnv`, an abstract environment supplying
module resolution and attribute lookup, returning `none` exactly where
the Python code would see ModuleNotFoundError or AttributeError — the two
exceptions the source catches).  Exceptions that escape a function are the
`Except.error` results of `PyErr`.
-/

set_option autoImplicit false

namespace FlowerToml

/-- TOML-derived Python value: string, integer, array, or table (dict). -/
inductive Value where
  | str : String → Value
  | int : Int → Value
  | arr : List Value → Value
  | table : List (String × Value) → Value

/-- A top-level configuration is a Python dict with string keys. -/
abbrev Config := List (String × Value)

/-- Dict lookup: first entry with the given key. -/
def lookupV : Config → String → Option Value
  | [], _ => none
  | (k, v) :: rest, key => if k = key then some v else lookupV rest key

/-- Dict assignment to a key that is already present: replace the value of
the first entry with that key, keeping its position. -/
def setKey : Config → String → Value → Config
  | [], _, _ => []
  | (k, v) :: rest, key, nv =>
    if k = key then (k, nv) :: rest else (k, v) :: setKey rest key nv

/-- Keys of a table, in order. -/
def keys (m : Config) : List String := m.map Prod.fst

/-- Python exceptions that can escape the modelled functions. -/
inductive PyErr where
  | typeError
  | keyError : String → PyErr
  | attributeError : PyErr
deriving DecidableEq

/-- Python equality between a string and an arbitrary value, as used by
list membership: only a string compares equal to a string. -/
def eqPyStr (k : String) : Value → Bool
  | .str s => k = s
  | _ => false

/-- Python membership test `k in v` for a string k: key lookup on dicts,
substring test on strings, element comparison on lists, TypeError on
integers. -/
def pyContains (k : String) : Value → Except PyErr Bool
  | .table m => .ok (lookupV m k).isSome
  | .str s => .ok (decide (List.IsInfix k.toList s.toList))
  | .arr l => .ok (l.any (eqPyStr k))
  | .int _ => .error .typeError

/-- Python subscript `v[k]` for a string k: dict lookup (KeyError when the
key is absent), TypeError on any non-dict value. -/
def pyIndex : Value → String → Except PyErr Value
  | .table m, k =>
    match lookupV m k with
    | some v => .ok v
    | none => .error (.keyError k)
  | _, _ => .error .typeError

/-! Exact user-facing message strings of the structural validator. -/

def missingProjectMsg : String := "Missing [project] section"
def nameErrMsg : String := "Property \"name\" missing in [project]"
def versionErrMsg : String := "Property \"version\" missing in [project]"
def descWarnMsg : String := "Recommended property \"description\" missing in [project]"
def licenseWarnMsg : String := "Recommended property \"license\" missing in [project]"
def authorsWarnMsg : String := "Recommended property \"authors\" missing in [project]"
def missingFlowerMsg : String := "Missing [flower] section"
def missingComponentsMsg : String := "Missing [flower.components] section"
def serverappErrMsg : String := "Property \"serverapp\" missing in [flower.components]"
def clientappErrMsg : String := "Property \"clientapp\" missing in [flower.components]"

/-- Checks of the `[project]` section of `validate_flower_toml_fields`:
returns the pair of accumulated errors and warnings. -/
def projectPart (config : Config) : Except PyErr (List String × List String) :=
  match lookupV config "project" with
  | none => .ok ([missingProjectMsg], [])
  | some proj =>
    match pyContains "name" proj with
    | .error e => .error e
    | .ok hasName =>
      match pyContains "version" proj with
      | .error e => .error e
      | .ok hasVersion =>
        match pyContains "description" proj with
        | .error e => .error e
        | .ok hasDesc =>
          match pyContains "license" proj with
          | .error e => .error e
          | .ok hasLicense =>
            match pyContains "authors" proj with
            | .error e => .error e
            | .ok hasAuthors =>
              .ok ((if hasName then [] else [nameErrMsg]) ++
                     (if hasVersion then [] else [versionErrMsg]),
                   (if hasDesc then [] else [descWarnMsg]) ++
                     (if hasLicense then [] else [licenseWarnMsg]) ++
                     (if hasAuthors then [] else [authorsWarnMsg]))

/-- Checks of the `[flower]` section of `validate_flower_toml_fields`:
returns the accumulated errors (this section produces no warnings). -/
def flowerPart (config : Config) : Except PyErr (List String) :=
  match lookupV config "flower" with
  | none => .ok [missingFlowerMsg]
  | some fl =>
    match pyContains "components" fl with
    | .error e => .error e
    | .ok false => .ok [missingComponentsMsg]
    | .ok true =>
      match pyIndex fl "components" with
      | .error e => .error e
      | .ok comp =>
        match pyContains "serverapp" comp with
        | .error e => .error e
        | .ok hasServer =>
          match pyContains "clientapp" comp with
          | .error e => .error e
          | .ok hasClient =>
            .ok ((if hasServer then [] else [serverappErrMsg]) ++
                 (if hasClient then [] else [clientappErrMsg]))

/-- Error and warning accumulation of `validate_flower_toml_fields`:
project-section messages first, then flower-section errors. -/
def fieldsCore (config : Config) : Except PyErr (List String × List String) :=
  match projectPart config with
  | .error e => .error e
  | .ok (perrs, warnings) =>
    match flowerPart config with
    | .error e => .error e
    | .ok ferrs => .ok (perrs ++ ferrs, warnings)

/-- Model of `validate_flower_toml_fields`: the structural validator.
Returns the triple (len(errors) == 0, errors, warnings). -/
def validate_flower_toml_fields (config : Config) :
    Except PyErr (Bool × List String × List String) :=
  match fieldsCore config with
  | .error e => .error e
  | .ok (errors, warnings) => .ok (errors.length == 0, errors, warnings)

/-! Model of the reference validator and its collaborator, the import
machinery. -/

/-- Abstract host module system: `importMod` resolves a module path to a
module object (`none` models ModuleNotFoundError), `getattr` resolves one
attribute name on an object (`none` models AttributeError).  These are the
two failure channels that `validate_object_reference` catches. -/
structure ImportEnv (α : Type) where
  importMod : String → Option α
  getattr : α → String → Option α

/-- Split a character list at the first occurrence of `sep`; `none` when
`sep` does not occur. -/
def partitionList (sep : Char) : List Char → Option (List Char × List Char)
  | [] => none
  | c :: rest =>
    if c = sep then some ([], rest)
    else
      match partitionList sep rest with
      | none => none
      | some (pre, post) => some (c :: pre, post)

/-- Model of Python `s.partition(sep)` restricted to the two parts the
source uses: the text before the first separator and the text after it;
when the separator is absent the whole string is the first part. -/
def pyPartition (s : String) (sep : Char) : String × String :=
  match partitionList sep s.toList with
  | none => (s, "")
  | some (pre, post) => (⟨pre⟩, ⟨post⟩)

/-- Split a character list on every occurrence of `sep` (Python
`s.split(sep)` for a one-character separator). -/
def splitList (sep : Char) : List Char → List (List Char)
  | [] => [[]]
  | c :: rest =>
    if c = sep then [] :: splitList sep rest
    else
      match splitList sep rest with
      | [] => [[c]]
      | g :: gs => (c :: g) :: gs

/-- Model of Python `s.split(sep)` for a one-character separator. -/
def pySplit (s : String) (sep : Char) : List String :=
  (splitList sep s.toList).map fun l => ⟨l⟩

/-- Walk of the attribute chain: starting from the module object, resolve
each attribute name in turn; `none` as soon as one lookup fails. -/
def loadAttrs {α : Type} (env : ImportEnv α) : α → List String → Option α
  | obj, [] => some obj
  | obj, a :: rest =>
    match env.getattr obj a with
    | none => none
    | some next => loadAttrs env next rest

/-- Model of `validate_object_reference`: partition the reference on the
first colon, reject empty module or attribute part, then resolve the
module and the dotted attribute chain, converting each failure into the
corresponding message. -/
def validate_object_reference {α : Type} (env : ImportEnv α) (ref : String) :
    Bool × Option String :=
  let module_str := (pyPartition ref ':').1
  let attributes_str := (pyPartition ref ':').2
  if module_str = "" then
    (false, some ("Missing module in " ++ ref))
  else if attributes_str = "" then
    (false, some ("Missing attribute in " ++ ref))
  else
    match env.importMod module_str with
    | none => (false, some ("Unable to load module " ++ module_str))
    | some m =>
      match loadAttrs env m (pySplit attributes_str '.') with
      | none =>
        (false, some ("Unable to load attribute " ++ attributes_str ++
          " from module " ++ module_str))
      | some _ => (true, none)

/-- Unguarded nested lookup chain
`config["flower"]["components"][name]` performed by `validate_flower_toml`. -/
def nestedIndex (config : Config) (name : String) : Except PyErr Value :=
  match lookupV config "flower" with
  | none => .error (.keyError "flower")
  | some fl =>
    match pyIndex fl "components" with
    | .error e => .error e
    | .ok comp => pyIndex comp name

/-- Use of a value as the string argument of `validate_object_reference`:
a non-string has no `partition` method, so Python raises AttributeError. -/
def asRefStr : Value → Except PyErr String
  | .str s => .ok s
  | _ => .error .attributeError

/-- Reference-checking phase of `validate_flower_toml`, reached only when
the structural validator reported valid: look up and validate the
serverapp reference, then the clientapp reference, short-circuiting on
the first failure whose reason is a string, with a single-element error
list and an empty warning list. -/
def refPhase {α : Type} (env : ImportEnv α) (config : Config) :
    Except PyErr (Bool × List String × List String) :=
  match nestedIndex config "serverapp" with
  | .error e => .error e
  | .ok sv =>
    match asRefStr sv with
    | .error e => .error e
    | .ok sref =>
      match validate_object_reference env sref with
      | (false, some reason) => .ok (false, [reason], [])
      | _ =>
        match nestedIndex config "clientapp" with
        | .error e => .error e
        | .ok cv =>
          match asRefStr cv with
          | .error e => .error e
          | .ok cref =>
            match validate_object_reference env cref with
            | (false, some reason) => .ok (false, [reason], [])
            | _ => .ok (true, [], [])

/-- Model of `validate_flower_toml`: run the structural validator, return
its triple when invalid; otherwise run the reference-checking phase. -/
def validate_flower_toml {α : Type} (env : ImportEnv α) (config : Config) :
    Except PyErr (Bool × List String × List String) :=
  match validate_flower_toml_fields config with
  | .error e => .error e
  | .ok (is_valid, errors, warnings) =>
    if is_valid = false then .ok (false, errors, warnings)
    else refPhase env config

/-! Model of `apply_defaults`. -/

mutual
/-- One iteration of the `for key in defaults` loop of `apply_defaults`:
if the key is absent from the config it is appended with its default
value; if both values are dicts they are merged recursively in place;
otherwise the existing value is kept. -/
def applyKey (config : Config) (k : String) (dv : Value) : Config :=
  match lookupV config k with
  | none => config ++ [(k, dv)]
  | some cv =>
    match cv, dv with
    | .table ct, .table dt => setKey config k (.table (apply_defaults ct dt))
    | _, _ => config
termination_by sizeOf dv
decreasing_by all_goals (simp; try omega)

/-- Model of `apply_defaults`: fold `applyKey` over the entries of the
defaults dict in order. -/
def apply_defaults (config : Config) : Config → Config
  | [] => config
  | (k, dv) :: rest => apply_defaults (applyKey config k dv) rest
termination_by d => sizeOf d
decreasing_by all_goals (simp; try omega)
end

mutual
/-- Well-formedness of a value as a Python object: every table in it has
pairwise-distinct keys (a dict cannot hold a key twice). -/
def Value.wf : Value → Bool
  | .table m => decide ((keys m).Nodup) && tableAllWF m
  | _ => true
termination_by v => sizeOf v
decreasing_by all_goals (simp; try omega)

/-- Well-formedness of every value stored in a table. -/
def tableAllWF : Config → Bool
  | [] => true
  | (_, v) :: rest => Value.wf v && tableAllWF rest
termination_by m => sizeOf m
decreasing_by all_goals (simp; try omega)
end

/-- Well-formedness of a table: distinct keys and well-formed values. -/
def tableWF (m : Config) : Bool := decide ((keys m).Nodup) && tableAllWF m

/-- Distinctness of the top-level keys of a table. -/
@[reducible] def NodupKeys (m : Config) : Prop := (keys m).Nodup

/-- Characterization, following the words of the specification, of the
defaults merge at a single key: a key absent from the configuration is
copied in with its default value, a key present in both with two table
values is merged recursively, and a key present in the configuration with
any other combination of values keeps its existing value. -/
def mergeSpec : Option Value → Option Value → Option Value
  | none, od => od
  | some cv, none => some cv
  | some (.table ct), some (.table dt) => some (.table (apply_defaults ct dt))
  | some cv, some _ => some cv

/-- A configuration value absorbs a default value when applying the
default changes nothing: for two tables the merge is the identity, and
any other combination is a no-op by definition. -/
def Absorbs : Value → Value → Prop
  | .table ct, .table dt => apply_defaults ct dt = ct
  | _, _ => True

/-! Association-list lemmas about `lookupV` and `setKey`. -/

theorem lookupV_append_of_some {a : Config} {k : String} {v : Value}
    (b : Config) (h : lookupV a k = some v) : lookupV (a ++ b) k = some v := by
  induction a with
  | nil => simp [lookupV] at h
  | cons e rest ih =>
    rw [List.cons_append]
    rw [lookupV] at h ⊢
    split at h
    · exact h ▸ (by simp_all [lookupV])
    · simp_all [lookupV]

theorem lookupV_append_of_none {a : Config} {k : String}
    (b : Config) (h : lookupV a k = none) : lookupV (a ++ b) k = lookupV b k := by
  induction a with
  | nil => simp
  | cons e rest ih =>
    rw [List.cons_append]
    rw [lookupV] at h ⊢
    split at h
    · exact absurd h (by simp)
    · simp_all [lookupV]

theorem lookupV_eq_none_of_not_mem {c : Config} {k : String}
    (h : k ∉ keys c) : lookupV c k = none := by
  induction c with
  | nil => rfl
  | cons e rest ih =>
    rw [lookupV]
    split
    · exact absurd (by simp_all [keys]) h
    · exact ih (fun hm => h (by simp_all [keys]))

theorem lookupV_setKey_self {c : Config} {k : String} {cv : Value}
    (nv : Value) (h : lookupV c k = some cv) :
    lookupV (setKey c k nv) k = some nv := by
  induction c with
  | nil => simp [lookupV] at h
  | cons e rest ih =>
    rw [lookupV] at h
    rw [setKey]
    split at h
    · simp_all [lookupV]
    · rw [if_neg (by assumption)]
      simp_all [lookupV]

@[simp] theorem keys_nil : keys [] = [] := rfl

@[simp] theorem keys_cons (e : String × Value) (rest : Config) :
    keys (e :: rest) = e.1 :: keys rest := rfl

theorem lookupV_setKey_ne {c : Config} {k k' : String}
    (nv : Value) (h : k' ≠ k) :
    lookupV (setKey c k' nv) k = lookupV c k := by
  induction c with
  | nil => rfl
  | cons e rest ih =>
    rw [setKey]
    split
    · next heq =>
      have hne : e.1 ≠ k := fun hc => h (heq ▸ hc)
      rw [lookupV, lookupV, if_neg hne, if_neg hne]
    · rw [lookupV, lookupV]
      split
      · rfl
      · exact ih

theorem setKey_self {c : Config} {k : String} {cv : Value}
    (h : lookupV c k = some cv) : setKey c k cv = c := by
  induction c with
  | nil => rfl
  | cons e rest ih =>
    rw [lookupV] at h
    rw [setKey]
    split at h
    · next heq =>
      injection h with h2
      rw [if_pos heq, ← h2]
    · rw [if_neg (by assumption), ih h]

theorem lookupV_mem_nodup {c : Config} {k : String} {v : Value}
    (hn : NodupKeys c) (hm : (k, v) ∈ c) : lookupV c k = some v := by
  induction c with
  | nil => simp at hm
  | cons e rest ih =>
    rw [NodupKeys, keys_cons] at hn
    have hne : e.1 ∉ keys rest := (List.nodup_cons.mp hn).1
    have hn' : NodupKeys rest := (List.nodup_cons.mp hn).2
    rw [lookupV]
    rcases List.mem_cons.mp hm with h1 | h2
    · rw [if_pos (congrArg Prod.fst h1).symm]
      exact congrArg (fun p => some p.2) h1.symm
    · have hkmem : k ∈ keys rest := by
        rw [keys]
        exact List.mem_map.mpr ⟨(k, v), h2, rfl⟩
      rw [if_neg (fun hc : e.1 = k => hne (hc.symm ▸ hkmem))]
      exact ih hn' h2

/-! Lemmas about one defaults-merge step and the full merge. -/

theorem mergeSpec_none_right (oc : Option Value) : mergeSpec oc none = oc := by
  match oc with
  | none => rfl
  | some (.str s) => rfl
  | some (.int n) => rfl
  | some (.arr l) => rfl
  | some (.table m) => rfl

theorem lookupV_applyKey_ne {k k0 : String} (c : Config) (dv : Value)
    (h : k0 ≠ k) : lookupV (applyKey c k0 dv) k = lookupV c k := by
  rw [applyKey]
  split
  · next hnone =>
    cases hlk : lookupV c k with
    | some v => exact lookupV_append_of_some _ hlk
    | none =>
      rw [lookupV_append_of_none _ hlk]
      simp [lookupV, h]
  · next cv hsome =>
    split
    · exact lookupV_setKey_ne _ h
    · rfl

theorem lookupV_applyKey_self (c : Config) (k : String) (dv : Value) :
    lookupV (applyKey c k dv) k = mergeSpec (lookupV c k) (some dv) := by
  rw [applyKey]
  split
  · next hnone =>
    rw [lookupV_append_of_none _ hnone, hnone]
    simp [lookupV, mergeSpec]
  · next cv hsome =>
    rw [hsome]
    split
    · next A B =>
      rw [lookupV_setKey_self _ hsome]
      rfl
    · next hno =>
      rw [hsome]
      cases cv with
      | table ct =>
        cases dv with
        | table dt => exact (hno ct dt rfl rfl).elim
        | str s => rfl
        | int n => rfl
        | arr l => rfl
      | str s => cases dv <;> rfl
      | int n => cases dv <;> rfl
      | arr l => cases dv <;> rfl

theorem lookupV_apply_defaults_not_mem {d : Config} {k : String} (c : Config)
    (h : k ∉ keys d) : lookupV (apply_defaults c d) k = lookupV c k := by
  induction d generalizing c with
  | nil => rw [apply_defaults]
  | cons e rest ih =>
    rw [keys_cons] at h
    rw [apply_defaults]
    rw [ih _ (fun hm => h (List.mem_cons_of_mem _ hm))]
    exact lookupV_applyKey_ne _ _ (fun hc => h (hc ▸ List.mem_cons_self _ _))

/-- C7: functional characterization of the defaults merge at every key,
against the specification-side `mergeSpec`: a key absent from the
configuration is copied in with its default value, a key present in both
with table values on both sides is merged recursively (preserving
already-present descendant keys, by the same rule applied recursively),
and a key present in the configuration with any other combination of
values keeps its existing value — defaults never override explicit
values. -/
theorem apply_defaults_lookup {d : Config} (c : Config) (k : String)
    (hd : NodupKeys d) :
    lookupV (apply_defaults c d) k = mergeSpec (lookupV c k) (lookupV d k) := by
  induction d generalizing c with
  | nil => rw [apply_defaults, lookupV, mergeSpec_none_right]
  | cons e rest ih =>
    rw [NodupKeys, keys_cons] at hd
    have hne : e.1 ∉ keys rest := (List.nodup_cons.mp hd).1
    have hd' : NodupKeys rest := (List.nodup_cons.mp hd).2
    rw [apply_defaults]
    by_cases hk : e.1 = k
    · subst hk
      rw [lookupV_apply_defaults_not_mem _ hne]
      rw [lookupV_applyKey_self, lookupV, if_pos rfl]
    · rw [ih _ hd', lookupV_applyKey_ne _ _ hk, lookupV, if_neg hk]

/-! Absorption: after one merge pass every default entry is already
satisfied, which yields idempotence of `apply_defaults`. -/

theorem applyKey_absorbed {c : Config} {k : String} {dv cv : Value}
    (hl : lookupV c k = some cv) (ha : Absorbs cv dv) : applyKey c k dv = c := by
  rw [applyKey, hl]
  cases cv with
  | table ct =>
    cases dv with
    | table dt =>
      have ha' : apply_defaults ct dt = ct := ha
      show setKey c k (Value.table (apply_defaults ct dt)) = c
      rw [ha']
      exact setKey_self hl
    | str s => rfl
    | int n => rfl
    | arr l => rfl
  | str s => cases dv <;> rfl
  | int n => cases dv <;> rfl
  | arr l => cases dv <;> rfl

theorem apply_defaults_absorbed {d : Config} (c : Config)
    (h : ∀ k dv, (k, dv) ∈ d → ∃ cv, lookupV c k = some cv ∧ Absorbs cv dv) :
    apply_defaults c d = c := by
  induction d generalizing c with
  | nil => rw [apply_defaults]
  | cons e rest ih =>
    obtain ⟨cv, hl, ha⟩ := h e.1 e.2 (by rw [Prod.mk.eta]; exact List.mem_cons_self _ _)
    rw [apply_defaults, applyKey_absorbed hl ha]
    exact ih _ (fun k dv hm => h k dv (List.mem_cons_of_mem _ hm))

theorem apply_defaults_disjoint {d : Config} (c : Config)
    (hd : NodupKeys d) (h : ∀ k, k ∈ keys d → lookupV c k = none) :
    apply_defaults c d = c ++ d := by
  induction d generalizing c with
  | nil => rw [apply_defaults, List.append_nil]
  | cons e rest ih =>
    rw [NodupKeys, keys_cons] at hd
    have hne := (List.nodup_cons.mp hd).1
    have hd' : NodupKeys rest := (List.nodup_cons.mp hd).2
    have h1 : lookupV c e.1 = none := h e.1 (by simp)
    have happ : applyKey c e.1 e.2 = c ++ [(e.1, e.2)] := by rw [applyKey, h1]
    have h2 : ∀ k, k ∈ keys rest → lookupV (c ++ [(e.1, e.2)]) k = none := by
      intro k hk
      rw [lookupV_append_of_none _ (h k (by simp [hk]))]
      rw [lookupV, if_neg (fun hc : e.1 = k => hne (hc.symm ▸ hk))]
      rfl
    rw [apply_defaults, happ, ih _ hd' h2, List.append_assoc]
    simp

theorem tableWF_cons {e : String × Value} {rest : Config}
    (h : tableWF (e :: rest) = true) :
    Value.wf e.2 = true ∧ tableWF rest = true ∧ e.1 ∉ keys rest := by
  rw [tableWF, Bool.and_eq_true, decide_eq_true_iff, keys_cons,
    List.nodup_cons, tableAllWF, Bool.and_eq_true] at h
  refine ⟨h.2.1, ?_, h.1.1⟩
  rw [tableWF, Bool.and_eq_true, decide_eq_true_iff]
  exact ⟨h.1.2, h.2.2⟩

theorem tableWF_of_wf_table {m : Config} (h : Value.wf (.table m) = true) :
    tableWF m = true := by
  rw [Value.wf] at h
  rw [tableWF]
  exact h

theorem nodupKeys_of_tableWF {m : Config} (h : tableWF m = true) :
    NodupKeys m := by
  rw [tableWF, Bool.and_eq_true, decide_eq_true_iff] at h
  exact h.1

theorem mergeSpec_some_absorbs {cv dv : Value}
    (htab : ∀ ct dt, cv = .table ct → dv = .table dt →
      apply_defaults (apply_defaults ct dt) dt = apply_defaults ct dt) :
    ∃ w, mergeSpec (some cv) (some dv) = some w ∧ Absorbs w dv := by
  cases cv with
  | table ct =>
    cases dv with
    | table dt => exact ⟨.table (apply_defaults ct dt), rfl, htab ct dt rfl rfl⟩
    | str s => exact ⟨.table ct, rfl, trivial⟩
    | int n => exact ⟨.table ct, rfl, trivial⟩
    | arr l => exact ⟨.table ct, rfl, trivial⟩
  | str s => cases dv <;> exact ⟨.str s, rfl, trivial⟩
  | int n => cases dv <;> exact ⟨.int n, rfl, trivial⟩
  | arr l => cases dv <;> exact ⟨.arr l, rfl, trivial⟩

theorem absorbs_self {dv : Value}
    (htab : ∀ dt, dv = .table dt → apply_defaults dt dt = dt) :
    Absorbs dv dv := by
  cases dv with
  | table dt => exact htab dt rfl
  | str s => trivial
  | int n => trivial
  | arr l => trivial

theorem absorbed_after_apply : ∀ {n : Nat} {d : Config}, sizeOf d ≤ n →
    tableWF d = true → ∀ (c : Config) (k : String) (dv : Value), (k, dv) ∈ d →
    ∃ cv, lookupV (apply_defaults c d) k = some cv ∧ Absorbs cv dv := by
  intro n
  induction n with
  | zero =>
    intro d hs _ c k dv hm
    exfalso
    cases d <;> simp at hs
  | succ m ih =>
    intro d hs hwf c k dv hm
    cases d with
    | nil => simp at hm
    | cons e rest =>
      obtain ⟨hwv, hwrest, hkne⟩ := tableWF_cons hwf
      obtain ⟨k0, dv0⟩ := e
      simp only at hwv hwrest hkne
      have hsrest : sizeOf rest ≤ m := by simp at hs; omega
      have hself : ∀ dt : Config, Value.wf (.table dt) = true → sizeOf dt ≤ m →
          apply_defaults dt dt = dt := by
        intro dt hw hsz
        have hwdt : tableWF dt = true := tableWF_of_wf_table hw
        have h0 : apply_defaults [] dt = dt :=
          apply_defaults_disjoint _ (nodupKeys_of_tableWF hwdt) (fun _ _ => rfl)
        have hI : apply_defaults (apply_defaults [] dt) dt = apply_defaults [] dt :=
          apply_defaults_absorbed _ (fun k1 dv1 hm1 => ih hsz hwdt [] k1 dv1 hm1)
        rw [h0] at hI
        exact hI
      rw [apply_defaults]
      rcases List.mem_cons.mp hm with h1 | h2
      · injection h1 with hk hv
        subst hk
        subst hv
        rw [lookupV_apply_defaults_not_mem _ hkne, lookupV_applyKey_self]
        cases hc : lookupV c k with
        | none =>
          refine ⟨dv, rfl, ?_⟩
          refine absorbs_self (fun dt hdt => ?_)
          subst hdt
          exact hself dt hwv (by simp at hs; omega)
        | some cv0 =>
          refine mergeSpec_some_absorbs (fun ct dt hct hdt => ?_)
          subst hct
          subst hdt
          refine apply_defaults_absorbed _ (fun k1 dv1 hm1 => ?_)
          exact ih (by simp at hs; omega) (tableWF_of_wf_table hwv) ct k1 dv1 hm1
      · exact ih hsrest hwrest (applyKey c k0 dv0) k dv h2

/-! Lemmas about the first-colon partition. -/

theorem partitionList_none_of_not_mem {sep : Char} : ∀ {l : List Char},
    sep ∉ l → partitionList sep l = none := by
  intro l
  induction l with
  | nil => intro _; rfl
  | cons c rest ih =>
    intro h
    have hc : ¬(c = sep) := fun hc => h (List.mem_cons.mpr (Or.inl hc.symm))
    rw [partitionList, if_neg hc, ih (fun hm => h (List.mem_cons_of_mem _ hm))]

theorem partitionList_some {sep : Char} : ∀ {l a b : List Char},
    partitionList sep l = some (a, b) → l = a ++ sep :: b ∧ sep ∉ a := by
  intro l
  induction l with
  | nil => intro a b h; exact Option.noConfusion h
  | cons c rest ih =>
    intro a b h
    rw [partitionList] at h
    split at h
    · next hc =>
      injection h with h2
      have ha : a = [] := (congrArg Prod.fst h2).symm
      have hb : b = rest := (congrArg Prod.snd h2).symm
      subst ha
      subst hb
      subst hc
      exact ⟨rfl, List.not_mem_nil _⟩
    · next hc =>
      cases hp : partitionList sep rest with
      | none => rw [hp] at h; exact Option.noConfusion h
      | some p =>
        obtain ⟨a0, b0⟩ := p
        obtain ⟨hl, hnm⟩ := ih hp
        rw [hp] at h
        injection h with h2
        have ha : a = c :: a0 := (congrArg Prod.fst h2).symm
        have hb : b = b0 := (congrArg Prod.snd h2).symm
        subst ha
        subst hb
        constructor
        · rw [List.cons_append, ← hl]
        · intro hmem
          rcases List.mem_cons.mp hmem with h3 | h4
          · exact hc h3.symm
          · exact hnm h4

theorem partitionList_mem_isSome {sep : Char} : ∀ {l : List Char},
    sep ∈ l → ∃ a b, partitionList sep l = some (a, b) := by
  intro l
  induction l with
  | nil => intro h; exact absurd h (List.not_mem_nil _)
  | cons c rest ih =>
    intro h
    rw [partitionList]
    by_cases hc : c = sep
    · rw [if_pos hc]
      exact ⟨[], rest, rfl⟩
    · rw [if_neg hc]
      have hr : sep ∈ rest := by
        rcases List.mem_cons.mp h with h1 | h2
        · exact absurd h1.symm hc
        · exact h2
      obtain ⟨a, b, hp⟩ := ih hr
      rw [hp]
      exact ⟨c :: a, b, rfl⟩

@[simp] theorem toList_mkStr (l : List Char) : String.toList ⟨l⟩ = l := rfl

theorem mkStr_eq_empty_iff (l : List Char) : (⟨l⟩ : String) = "" ↔ l = [] := by
  constructor
  · intro h
    have := congrArg String.toList h
    simpa using this
  · intro h
    rw [h]

/-- C6: validate_object_reference splits the reference string on the first
colon into a module part and an attribute part; when the module part is
empty it fails with the missing-module message, and otherwise when the
attribute part is empty it fails with the missing-attribute message, in
that precedence order. -/
theorem validate_object_reference_split {α : Type} (env : ImportEnv α) (ref : String) :
    ((':' ∈ ref.toList) →
      ref.toList =
        (pyPartition ref ':').1.toList ++ ':' :: (pyPartition ref ':').2.toList ∧
      ':' ∉ (pyPartition ref ':').1.toList) ∧
    ((pyPartition ref ':').1 = "" →
      validate_object_reference env ref =
        (false, some ("Missing module in " ++ ref))) ∧
    ((pyPartition ref ':').1 ≠ "" → (pyPartition ref ':').2 = "" →
      validate_object_reference env ref =
        (false, some ("Missing attribute in " ++ ref))) := by
  refine ⟨?_, ?_, ?_⟩
  · intro hmem
    obtain ⟨a, b, hp⟩ := partitionList_mem_isSome hmem
    obtain ⟨hl, hnm⟩ := partitionList_some hp
    rw [pyPartition, hp]
    exact ⟨by simpa using hl, by simpa using hnm⟩
  · intro h
    simp only [validate_object_reference]
    rw [if_pos h]
  · intro h1 h2
    simp only [validate_object_reference]
    rw [if_neg h1, if_pos h2]

/-- Witness for C6 at the concrete reference ":x", whose module part is
empty. -/
theorem validate_object_reference_split_witness :
    validate_object_reference ⟨fun _ => some 0, fun _ _ => (none : Option Nat)⟩ ":x"
      = (false, some ("Missing module in " ++ ":x")) :=
  (validate_object_reference_split
    ⟨fun _ => some 0, fun _ _ => (none : Option Nat)⟩ ":x").2.1 (by decide)

/-- C10: a non-empty reference without any colon is treated as a module
part with an empty attribute part, so it fails with the missing-attribute
message. -/
theorem validate_object_reference_no_colon {α : Type} (env : ImportEnv α)
    (ref : String) (h1 : ref ≠ "") (h2 : ':' ∉ ref.toList) :
    validate_object_reference env ref =
      (false, some ("Missing attribute in " ++ ref)) := by
  have hp : pyPartition ref ':' = (ref, "") := by
    rw [pyPartition, partitionList_none_of_not_mem h2]
  simp only [validate_object_reference, hp]
  rw [if_neg h1]
  simp

/-- Witness for C10 at the colonless reference "flwr". -/
theorem validate_object_reference_no_colon_witness :
    validate_object_reference ⟨fun _ => some 0, fun _ _ => (none : Option Nat)⟩ "flwr"
      = (false, some ("Missing attribute in " ++ "flwr")) :=
  validate_object_reference_no_colon
    ⟨fun _ => some 0, fun _ _ => (none : Option Nat)⟩ "flwr"
    (by decide) (by decide)

/-- C2: for a reference with non-empty module and attribute parts, the two
collaborator failure channels are converted into returned result values:
an unresolvable module yields the unable-to-load-module message and a
failed attribute walk yields the unable-to-load-attribute message.  The
model returns a plain pair, so no exception crosses the validation
boundary. -/
theorem validate_object_reference_conversion {α : Type} (env : ImportEnv α)
    (ref : String) (hm : (pyPartition ref ':').1 ≠ "")
    (ha : (pyPartition ref ':').2 ≠ "") :
    (env.importMod (pyPartition ref ':').1 = none →
      validate_object_reference env ref =
        (false, some ("Unable to load module " ++ (pyPartition ref ':').1))) ∧
    (∀ obj, env.importMod (pyPartition ref ':').1 = some obj →
      loadAttrs env obj (pySplit (pyPartition ref ':').2 '.') = none →
      validate_object_reference env ref =
        (false, some ("Unable to load attribute " ++ (pyPartition ref ':').2 ++
          " from module " ++ (pyPartition ref ':').1))) := by
  constructor
  · intro himp
    simp only [validate_object_reference, himp]
    rw [if_neg hm, if_neg ha]
  · intro obj himp hattr
    simp only [validate_object_reference, himp, hattr]
    rw [if_neg hm, if_neg ha]

/-- Witness for C2 at the concrete reference "badmodule:fn" in an
environment that resolves no module. -/
theorem validate_object_reference_conversion_witness :
    validate_object_reference ⟨fun _ => none, fun _ _ => (none : Option Nat)⟩ "badmodule:fn"
      = (false, some ("Unable to load module " ++ "badmodule")) := by
  have h := (validate_object_reference_conversion
    ⟨fun _ => none, fun _ _ => (none : Option Nat)⟩ "badmodule:fn"
    (by decide) (by decide)).1 rfl
  exact h.trans (by decide)

/-! Shape lemmas for the structural validator. -/

theorem fields_ok_shape {config : Config} {b : Bool} {es ws : List String}
    (h : validate_flower_toml_fields config = .ok (b, es, ws)) :
    fieldsCore config = .ok (es, ws) ∧ b = (es.length == 0) := by
  rw [validate_flower_toml_fields] at h
  cases hc : fieldsCore config with
  | error e => rw [hc] at h; exact Except.noConfusion h
  | ok p =>
    obtain ⟨errors, warnings⟩ := p
    rw [hc] at h
    injection h with h2
    have hb : (errors.length == 0) = b := congrArg (fun t => t.1) h2
    have he : errors = es := congrArg (fun t => t.2.1) h2
    have hw : warnings = ws := congrArg (fun t => t.2.2) h2
    subst he
    subst hw
    exact ⟨rfl, hb.symm⟩

theorem fieldsCore_ok_shape {config : Config} {es ws : List String}
    (h : fieldsCore config = .ok (es, ws)) :
    ∃ perrs ferrs, projectPart config = .ok (perrs, ws) ∧
      flowerPart config = .ok ferrs ∧ es = perrs ++ ferrs := by
  rw [fieldsCore] at h
  cases hpp : projectPart config with
  | error e => rw [hpp] at h; exact Except.noConfusion h
  | ok pp =>
    obtain ⟨perrs, pws⟩ := pp
    rw [hpp] at h
    cases hfp : flowerPart config with
    | error e => rw [hfp] at h; exact Except.noConfusion h
    | ok ferrs =>
      rw [hfp] at h
      injection h with h2
      have h1 : perrs ++ ferrs = es := congrArg (fun t => t.1) h2
      have h2w : pws = ws := congrArg (fun t => t.2) h2
      exact ⟨perrs, ferrs, by rw [h2w], rfl, h1.symm⟩

theorem flowerPart_nil_shape {config : Config}
    (h : flowerPart config = .ok []) :
    ∃ f comp, lookupV config "flower" = some (.table f) ∧
      lookupV f "components" = some comp ∧
      pyContains "serverapp" comp = .ok true ∧
      pyContains "clientapp" comp = .ok true := by
  rw [flowerPart] at h
  split at h
  · injection h with h2
    exact absurd h2 (by simp)
  · next fl hlf =>
    split at h
    · exact Except.noConfusion h
    · injection h with h2
      exact absurd h2 (by simp)
    · next hcc =>
      split at h
      · exact Except.noConfusion h
      · next comp hpi =>
        split at h
        · exact Except.noConfusion h
        · next hasServer hs =>
          split at h
          · exact Except.noConfusion h
          · next hasClient hc2 =>
            injection h with h2
            cases hasServer with
            | false => simp at h2
            | true =>
              cases hasClient with
              | false => simp at h2
              | true =>
                cases fl with
                | table f =>
                  rw [pyIndex] at hpi
                  split at hpi
                  · next cv hlc =>
                    injection hpi with h3
                    exact ⟨f, comp, hlf, h3 ▸ hlc, hs, hc2⟩
                  · exact Except.noConfusion hpi
                | str s => exact Except.noConfusion hpi
                | int n => exact Except.noConfusion hpi
                | arr l => exact Except.noConfusion hpi

theorem pyIndex_not_keyError {comp : Value} {name : String}
    (h : pyContains name comp = .ok true) :
    ∀ k, pyIndex comp name ≠ .error (.keyError k) := by
  intro k
  cases comp with
  | table m =>
    rw [pyContains] at h
    injection h with h2
    rw [pyIndex]
    cases hl : lookupV m name with
    | none => rw [hl] at h2; simp at h2
    | some v => exact fun hc => Except.noConfusion hc
  | str s =>
    intro hc
    injection hc with h2
    exact PyErr.noConfusion h2
  | int n =>
    rw [pyContains] at h
    exact Except.noConfusion h
  | arr l =>
    intro hc
    injection hc with h2
    exact PyErr.noConfusion h2

/-- C4: the success flag returned by the structural validator is true
exactly when the returned error list is empty; the warning list plays no
part in the flag. -/
theorem validate_flower_toml_fields_success_iff (config : Config)
    (b : Bool) (es ws : List String)
    (h : validate_flower_toml_fields config = .ok (b, es, ws)) :
    b = true ↔ es = [] := by
  obtain ⟨-, hb⟩ := fields_ok_shape h
  subst hb
  simp [List.length_eq_zero]

/-- Witness for C4 at the empty configuration, which fails with two
errors. -/
theorem validate_flower_toml_fields_success_iff_witness :
    false = true ↔ ([missingProjectMsg, missingFlowerMsg] : List String) = [] :=
  validate_flower_toml_fields_success_iff [] false
    [missingProjectMsg, missingFlowerMsg] [] rfl

/-- C9: a configuration accepted by the structural validator has the
flower key bound to a table, a components key inside it, serverapp and
clientapp membership inside the components value, and consequently the
unguarded nested lookups of the orchestrator cannot fail with a
missing-key error. -/
theorem fields_valid_keys_present (config : Config) (es ws : List String)
    (h : validate_flower_toml_fields config = .ok (true, es, ws)) :
    ∃ f comp, lookupV config "flower" = some (.table f) ∧
      lookupV f "components" = some comp ∧
      pyContains "serverapp" comp = .ok true ∧
      pyContains "clientapp" comp = .ok true ∧
      (∀ k, nestedIndex config "serverapp" ≠ .error (.keyError k)) ∧
      (∀ k, nestedIndex config "clientapp" ≠ .error (.keyError k)) := by
  obtain ⟨hcore, hb⟩ := fields_ok_shape h
  have he : es = [] := by
    have := hb.symm
    simpa [List.length_eq_zero] using this
  subst he
  obtain ⟨perrs, ferrs, hpp, hfp, hsplit⟩ := fieldsCore_ok_shape hcore
  have hfe : ferrs = [] := (List.append_eq_nil.mp hsplit.symm).2
  subst hfe
  obtain ⟨f, comp, hlf, hlc, hs, hcl⟩ := flowerPart_nil_shape hfp
  have hcompIdx : pyIndex (.table f) "components" = .ok comp := by
    rw [pyIndex, hlc]
  have hni : ∀ name, nestedIndex config name = pyIndex comp name := by
    intro name
    rw [nestedIndex, hlf]
    show (match pyIndex (.table f) "components" with
          | .error e => .error e
          | .ok c => pyIndex c name) = pyIndex comp name
    rw [hcompIdx]
  refine ⟨f, comp, hlf, hlc, hs, hcl, ?_, ?_⟩
  · intro k hc
    rw [hni] at hc
    exact pyIndex_not_keyError hs k hc
  · intro k hc
    rw [hni] at hc
    exact pyIndex_not_keyError hcl k hc

/-- Witness for C9 at a concrete structurally valid configuration. -/
theorem fields_valid_keys_present_witness :
    ∃ f comp,
      lookupV [("project", Value.table [("name", Value.str "x"),
          ("version", Value.str "1.0"), ("description", Value.str "d"),
          ("license", Value.str "l"), ("authors", Value.arr [])]),
        ("flower", Value.table [("components", Value.table
          [("serverapp", Value.str "m:a"), ("clientapp", Value.str "m:b")])])]
        "flower" = some (.table f) ∧
      lookupV f "components" = some comp ∧
      pyContains "serverapp" comp = .ok true ∧
      pyContains "clientapp" comp = .ok true ∧
      (∀ k, nestedIndex [("project", Value.table [("name", Value.str "x"),
          ("version", Value.str "1.0"), ("description", Value.str "d"),
          ("license", Value.str "l"), ("authors", Value.arr [])]),
        ("flower", Value.table [("components", Value.table
          [("serverapp", Value.str "m:a"), ("clientapp", Value.str "m:b")])])]
        "serverapp" ≠ .error (.keyError k)) ∧
      (∀ k, nestedIndex [("project", Value.table [("name", Value.str "x"),
          ("version", Value.str "1.0"), ("description", Value.str "d"),
          ("license", Value.str "l"), ("authors", Value.arr [])]),
        ("flower", Value.table [("components", Value.table
          [("serverapp", Value.str "m:a"), ("clientapp", Value.str "m:b")])])]
        "clientapp" ≠ .error (.keyError k)) :=
  fields_valid_keys_present _ [] [] rfl

/-- C5 counterexample: the spec example configuration, whose project
section holds exactly name and version and whose components section is
complete, produces three warnings, not two. -/
theorem fields_two_warnings_cex :
    Except.map (fun r => r.2.2.length) (validate_flower_toml_fields
      [("project", Value.table [("name", Value.str "x"), ("version", Value.str "1.0")]),
       ("flower", Value.table [("components", Value.table
          [("serverapp", Value.str "app:server"), ("clientapp", Value.str "app:client")])])])
      = .ok 3 ∧
    Except.map (fun r => r.2.2.length) (validate_flower_toml_fields
      [("project", Value.table [("name", Value.str "x"), ("version", Value.str "1.0")]),
       ("flower", Value.table [("components", Value.table
          [("serverapp", Value.str "app:server"), ("clientapp", Value.str "app:client")])])])
      ≠ .ok 2 := by
  have h1 : Except.map (fun r => r.2.2.length) (validate_flower_toml_fields
      [("project", Value.table [("name", Value.str "x"), ("version", Value.str "1.0")]),
       ("flower", Value.table [("components", Value.table
          [("serverapp", Value.str "app:server"), ("clientapp", Value.str "app:client")])])])
      = .ok 3 := rfl
  refine ⟨h1, fun hc => ?_⟩
  rw [h1] at hc
  injection hc with h2
  exact absurd h2 (by decide)

/-- C5 (amended): for a configuration whose project table holds name and
version but none of the recommended description, license and authors
keys, and whose flower.components section contains serverapp and
clientapp, the structural validator reports valid with no errors and
exactly three warnings (description, license, authors).  The three
recommended-property checks are independent of the name and version
checks: the warning list is the same even when those required checks are
not known to pass. -/
theorem fields_three_warnings (config : Config) (p f : Config) (comp : Value)
    (hp : lookupV config "project" = some (.table p))
    (hd : lookupV p "description" = none)
    (hl : lookupV p "license" = none)
    (ha : lookupV p "authors" = none)
    (hf : lookupV config "flower" = some (.table f))
    (hc : lookupV f "components" = some comp)
    (hs : pyContains "serverapp" comp = .ok true)
    (hcl : pyContains "clientapp" comp = .ok true) :
    Except.map (fun r => r.2.2) (validate_flower_toml_fields config)
        = .ok [descWarnMsg, licenseWarnMsg, authorsWarnMsg] ∧
    ((lookupV p "name").isSome = true → (lookupV p "version").isSome = true →
      validate_flower_toml_fields config
        = .ok (true, [], [descWarnMsg, licenseWarnMsg, authorsWarnMsg])) := by
  have hpp : projectPart config = .ok
      ((if (lookupV p "name").isSome then [] else [nameErrMsg]) ++
        (if (lookupV p "version").isSome then [] else [versionErrMsg]),
       [descWarnMsg, licenseWarnMsg, authorsWarnMsg]) := by
    simp only [projectPart, hp, pyContains, hd, hl, ha, Option.isSome_none]
    simp
  have hcf : pyContains "components" (Value.table f) = .ok true := by
    rw [pyContains, hc]
    rfl
  have hpi2 : pyIndex (Value.table f) "components" = .ok comp := by
    rw [pyIndex, hc]
  have hfp : flowerPart config = .ok [] := by
    simp only [flowerPart, hf, hcf, hpi2, hs, hcl]
    simp
  have hcore : fieldsCore config = .ok
      ((if (lookupV p "name").isSome then [] else [nameErrMsg]) ++
        (if (lookupV p "version").isSome then [] else [versionErrMsg]) ++ [],
       [descWarnMsg, licenseWarnMsg, authorsWarnMsg]) := by
    rw [fieldsCore, hpp, hfp]
  constructor
  · rw [validate_flower_toml_fields, hcore]
    simp [Except.map]
  · intro hn hv
    rw [validate_flower_toml_fields, hcore]
    simp [hn, hv]

/-- Witness for the amended C5 at the spec example configuration. -/
theorem fields_three_warnings_witness :
    validate_flower_toml_fields
      [("project", Value.table [("name", Value.str "x"), ("version", Value.str "1.0")]),
       ("flower", Value.table [("components", Value.table
          [("serverapp", Value.str "app:server"), ("clientapp", Value.str "app:client")])])]
      = .ok (true, [], [descWarnMsg, licenseWarnMsg, authorsWarnMsg]) :=
  (fields_three_warnings
    [("project", Value.table [("name", Value.str "x"), ("version", Value.str "1.0")]),
     ("flower", Value.table [("components", Value.table
        [("serverapp", Value.str "app:server"), ("clientapp", Value.str "app:client")])])]
    [("name", Value.str "x"), ("version", Value.str "1.0")]
    [("components", Value.table
      [("serverapp", Value.str "app:server"), ("clientapp", Value.str "app:client")])]
    (Value.table [("serverapp", Value.str "app:server"), ("clientapp", Value.str "app:client")])
    rfl rfl rfl rfl rfl rfl rfl rfl).2 rfl rfl

/-- C3: when the structural validator reports invalid, the orchestrator
returns the structural result triple unchanged for every import
environment, so no reference validation can influence the outcome. -/
theorem validate_flower_toml_invalid_unchanged {α : Type} (env : ImportEnv α)
    (config : Config) (es ws : List String)
    (h : validate_flower_toml_fields config = .ok (false, es, ws)) :
    validate_flower_toml env config = .ok (false, es, ws) := by
  rw [validate_flower_toml, h]
  simp

/-- Witness for C3 at the empty configuration, which is structurally
invalid with two errors. -/
theorem validate_flower_toml_invalid_unchanged_witness :
    validate_flower_toml (⟨fun _ => some 0, fun _ _ => some 0⟩ : ImportEnv Nat) []
      = .ok (false, [missingProjectMsg, missingFlowerMsg], []) :=
  validate_flower_toml_invalid_unchanged _ []
    [missingProjectMsg, missingFlowerMsg] [] rfl

theorem validate_flower_toml_valid_phase {α : Type} (env : ImportEnv α)
    {config : Config} {es ws : List String}
    (h : validate_flower_toml_fields config = .ok (true, es, ws)) :
    validate_flower_toml env config = refPhase env config := by
  rw [validate_flower_toml, h]
  simp

/-- C1: when the structural validator reports valid, the orchestrator
discards the structural warnings in every returned outcome: a serverapp
reference failure returns exactly that single reason with an empty
warning list (independently of the clientapp reference, which is not
consulted), a clientapp failure after a serverapp success returns exactly
that single reason with an empty warning list, and when both references
resolve the result is success with empty error and warning lists. -/
theorem validate_flower_toml_valid_path {α : Type} (env : ImportEnv α)
    (config : Config) (es ws : List String)
    (h : validate_flower_toml_fields config = .ok (true, es, ws)) :
    (∀ r, validate_flower_toml env config = .ok r → r.2.2 = []) ∧
    (∀ sv sref, nestedIndex config "serverapp" = .ok sv → asRefStr sv = .ok sref →
      ((∀ reason, validate_object_reference env sref = (false, some reason) →
          validate_flower_toml env config = .ok (false, [reason], [])) ∧
        ((validate_object_reference env sref).1 = true →
          ∀ cv cref, nestedIndex config "clientapp" = .ok cv →
            asRefStr cv = .ok cref →
            ((∀ reason, validate_object_reference env cref = (false, some reason) →
                validate_flower_toml env config = .ok (false, [reason], [])) ∧
              ((validate_object_reference env cref).1 = true →
                validate_flower_toml env config = .ok (true, [], [])))))) := by
  have hv := validate_flower_toml_valid_phase env h
  constructor
  · intro r hr
    rw [hv, refPhase] at hr
    repeat' split at hr
    all_goals first
      | exact Except.noConfusion hr
      | (injection hr with h2; exact (congrArg (fun t => t.2.2) h2).symm)
  · intro sv sref hsv hsref
    refine ⟨?_, ?_⟩
    · intro reason hr
      rw [hv]
      simp only [refPhase, hsv, hsref, hr]
    · intro hok
      cases hvr : validate_object_reference env sref with
      | mk b o =>
        rw [hvr] at hok
        have hb : b = true := hok
        subst hb
        intro cv cref hcv hcref
        refine ⟨?_, ?_⟩
        · intro reason hr2
          rw [hv]
          simp only [refPhase, hsv, hsref, hvr, hcv, hcref, hr2]
        · intro hok2
          cases hvr2 : validate_object_reference env cref with
          | mk b2 o2 =>
            rw [hvr2] at hok2
            have hb2 : b2 = true := hok2
            subst hb2
            rw [hv]
            simp only [refPhase, hsv, hsref, hvr, hcv, hcref, hvr2]

/-- Witness for C1 at a concrete structurally valid configuration and
an import environment resolving every module and attribute. -/
theorem validate_flower_toml_valid_path_witness :
    validate_flower_toml (⟨fun _ => some 0, fun _ _ => some 0⟩ : ImportEnv Nat)
      [("project", Value.table [("name", Value.str "x"),
          ("version", Value.str "1.0"), ("description", Value.str "d"),
          ("license", Value.str "l"), ("authors", Value.arr [])]),
       ("flower", Value.table [("components", Value.table
          [("serverapp", Value.str "m:a"), ("clientapp", Value.str "m:b")])])]
      = .ok (true, [], []) :=
  ((((validate_flower_toml_valid_path
      (⟨fun _ => some 0, fun _ _ => some 0⟩ : ImportEnv Nat)
      [("project", Value.table [("name", Value.str "x"),
          ("version", Value.str "1.0"), ("description", Value.str "d"),
          ("license", Value.str "l"), ("authors", Value.arr [])]),
       ("flower", Value.table [("components", Value.table
          [("serverapp", Value.str "m:a"), ("clientapp", Value.str "m:b")])])]
      [] [] rfl).2 (.str "m:a") "m:a" rfl rfl).2 rfl
      (.str "m:b") "m:b" rfl rfl).2) rfl

/-- C8: apply_defaults is idempotent on well-formed defaults trees:
applying the same defaults twice yields the same configuration as
applying them once. -/
theorem apply_defaults_idem {c d : Config} (hwf : tableWF d = true) :
    apply_defaults (apply_defaults c d) d = apply_defaults c d :=
  apply_defaults_absorbed _ (fun k dv hm =>
    absorbed_after_apply (Nat.le_refl _) hwf c k dv hm)

/-- Witness for C8 at a concrete configuration and nested defaults
tree. -/
theorem apply_defaults_idem_witness :
    tableWF [("a", Value.table [("x", Value.int 1)]), ("b", Value.int 3)] = true ∧
    apply_defaults (apply_defaults
        [("a", Value.table [("x", Value.int 0), ("y", Value.int 9)])]
        [("a", Value.table [("x", Value.int 1)]), ("b", Value.int 3)])
        [("a", Value.table [("x", Value.int 1)]), ("b", Value.int 3)]
      = apply_defaults
        [("a", Value.table [("x", Value.int 0), ("y", Value.int 9)])]
        [("a", Value.table [("x", Value.int 1)]), ("b", Value.int 3)] := by
  have hwf : tableWF [("a", Value.table [("x", Value.int 1)]),
      ("b", Value.int 3)] = true := by
    simp [tableWF, tableAllWF, Value.wf, keys]
  exact ⟨hwf, apply_defaults_idem hwf⟩

/-- Witness for C7 at the concrete example of the spec: existing values
win and missing values are filled. -/
theorem apply_defaults_lookup_witness :
    NodupKeys [("a", Value.int 2), ("b", Value.int 3)] ∧
    lookupV (apply_defaults [("a", Value.int 1)]
        [("a", Value.int 2), ("b", Value.int 3)]) "b"
      = mergeSpec (lookupV [("a", Value.int 1)] "b")
          (lookupV [("a", Value.int 2), ("b", Value.int 3)] "b") :=
  ⟨by decide, apply_defaults_lookup _ "b" (by decide)⟩

end FlowerToml
